import Mathlib

/-!
Shallow embedding of the learning engine of `src/script.js`
(vocabulary trainer): word repository, review scheduler, streak
tracker, quiz construction, distractor generation and import merge.

Timestamps are modelled as natural numbers counting hours since an
epoch; a JS `Date`'s calendar day (`toDateString`) is modelled by
`dayOf` (integer division by 24), and "now + d days" is `now + 24*d`.
JS objects keyed by id (`state.words`) are modelled as lists of words
in insertion order (`Object.values` enumerates string keys in
insertion order); keyed assignment `state.words[id] = w` is
`insertKeyed`.
-/

/-- Per-word statistics sub-record (`word.stats` in `script.js`). -/
structure Stats where
  addedAt : Nat
  timesTested : Nat
  correctCount : Nat
  wrongCount : Nat
  lastTested : Option Nat
  difficultyScore : Int
  nextReviewDate : Nat
  learned : Bool
deriving Repr, DecidableEq

/-- A word record as created by `addWord` in `script.js`. -/
structure Word where
  id : String
  english : String
  turkish : String
  pronunciation : String
  turkishExplanation : String
  englishExplanation : String
  synonyms : List String
  antonyms : List String
  examples : List String
  level : String
  categories : List String
  notes : String
  favorite : Bool
  stats : Stats
deriving Repr, DecidableEq

/-- Hours per day: the timestamp model counts hours. -/
def hoursPerDay : Nat := 24

/-- Calendar day of a timestamp (models `Date.toDateString` equality). -/
def dayOf (t : Nat) : Nat := t / hoursPerDay

/-- JS `String.prototype.toLowerCase`, modelled character-wise (the
strings in this development are ASCII). -/
def jsToLower (s : String) : String := ⟨s.data.map Char.toLower⟩

/-- JS `String.prototype.trim`: strip leading and trailing
whitespace. -/
def jsTrim (s : String) : String :=
  ⟨((s.data.dropWhile Char.isWhitespace).reverse.dropWhile Char.isWhitespace).reverse⟩

/-- The fresh statistics record `addWord` installs:
`timesTested = correctCount = wrongCount = 0`, `lastTested = null`,
`difficultyScore = 0`, `nextReviewDate = now`, `learned = false`. -/
def mkInitStats (now : Nat) : Stats :=
  { addedAt := now
    timesTested := 0
    correctCount := 0
    wrongCount := 0
    lastTested := none
    difficultyScore := 0
    nextReviewDate := now
    learned := false }

/-- The spaced-repetition interval ladder of `updateWordStats`. -/
def intervals : List Nat := [1, 3, 7, 14, 30, 90]

/-- `updateWordStats` from `script.js` (lines 292-329), acting on the
stats record; `correct` picks the branch, `now` is the call time.
Mirrors the source statement by statement: `timesTested++`,
`lastTested = now`; on a correct answer `correctCount++`,
`difficultyScore = max(0, difficultyScore - 1)`,
`streak = correctCount - wrongCount`,
`intervalIndex = min(max(0, streak - 1), 5)`,
`nextReviewDate = now + intervals[intervalIndex]` days; on a wrong
answer `wrongCount++`, `difficultyScore += 2`,
`nextReviewDate = now + 1` day; finally `learned = true` whenever
`correctCount >= 5 && wrongCount === 0`. -/
def updateWordStats (s : Stats) (correct : Bool) (now : Nat) : Stats :=
  let s1 : Stats := { s with timesTested := s.timesTested + 1, lastTested := some now }
  let s2 : Stats :=
    if correct then
      let cc : Nat := s1.correctCount + 1
      let ds : Int := max 0 (s1.difficultyScore - 1)
      let streak : Int := (cc : Int) - (s1.wrongCount : Int)
      let intervalIndex : Nat := (min (max 0 (streak - 1)) 5).toNat
      let days := intervals.getD intervalIndex 0
      { s1 with correctCount := cc, difficultyScore := ds,
                nextReviewDate := now + hoursPerDay * days }
    else
      { s1 with wrongCount := s1.wrongCount + 1,
                difficultyScore := s1.difficultyScore + 2,
                nextReviewDate := now + hoursPerDay * 1 }
  if s2.correctCount ≥ 5 ∧ s2.wrongCount = 0 then
    { s2 with learned := true }
  else s2

/-- Folding a sequence of (correct?, time) answers through
`updateWordStats`, as the quiz loop does one call per answer. -/
def runAnswers (init : Stats) (l : List (Bool × Nat)) : Stats :=
  l.foldl (fun s p => updateWordStats s p.1 p.2) init

/-- `toggleLearned` from `script.js` (lines 2515-2521): the manual
toggle flips `stats.learned`. -/
def toggleLearned (w : Word) : Word :=
  { w with stats := { w.stats with learned := !w.stats.learned } }

/-- `isHardWord` from `script.js` (lines 348-351). The error-rate
clause `wrongCount / timesTested >= 0.4` is stated over the rationals
as `5 * wrongCount ≥ 2 * timesTested`. -/
def isHardWord (w : Word) : Bool :=
  w.stats.difficultyScore ≥ 3 ||
    (w.stats.timesTested ≥ 3 && 5 * w.stats.wrongCount ≥ 2 * w.stats.timesTested)

/-- The streak record `state.appStats.streak`. -/
structure Streak where
  current : Nat
  best : Nat
  lastActive : Option Nat
deriving Repr, DecidableEq

/-- `updateStreak` from `script.js` (lines 2523-2553). `toDateString`
equality is day equality (`dayOf`); "yesterday" is the calendar day
one before `now`'s. If `lastActive` is on today's calendar day the
function returns immediately, touching nothing; otherwise `current`
is incremented (yesterday) or reset to 1 (anything else, including no
prior activity), then `lastActive := now` and
`best := max best current`. -/
def updateStreak (st : Streak) (now : Nat) : Streak :=
  let today := dayOf now
  let sameDay : Bool := match st.lastActive with
    | some t => dayOf t = today
    | none => false
  if sameDay then st
  else
    let cur : Nat := match st.lastActive with
      | some t => if dayOf t + 1 = today then st.current + 1 else 1
      | none => 1
    { current := cur, best := max st.best cur, lastActive := some now }

/-- Keyed assignment `state.words[w.id] = w` on the insertion-ordered
view: replaces in place when the id is present, appends otherwise. -/
def insertKeyed (ws : List Word) (w : Word) : List Word :=
  if ws.any (fun x => x.id = w.id) then
    ws.map (fun x => if x.id = w.id then w else x)
  else ws ++ [w]

/-- The duplicate test the merge branch of `importData` applies to an
imported word `w` against the current repository (lines 170-173):
some existing word matches case-insensitively on english AND on
turkish (no trimming). -/
def mergeDuplicate (ws : List Word) (w : Word) : Bool :=
  (ws.find? (fun x =>
    jsToLower x.english = jsToLower w.english &&
    jsToLower x.turkish = jsToLower w.turkish)).isSome

/-- One iteration of the merge loop of `importData` (lines 169-181):
state is (current words, mergedCount, skippedCount). -/
def mergeStep (acc : List Word × Nat × Nat) (w : Word) : List Word × Nat × Nat :=
  if mergeDuplicate acc.1 w then (acc.1, acc.2.1, acc.2.2 + 1)
  else (insertKeyed acc.1 w, acc.2.1 + 1, acc.2.2)

/-- The `mode === 'merge'` branch of `importData` from `script.js`
(lines 164-184): fold the imported words, in order, through
`mergeStep`, starting from the current repository and zero counters.
Returns (final words, mergedCount, skippedCount). -/
def importDataMerge (ws : List Word) (imported : List Word) : List Word × Nat × Nat :=
  imported.foldl mergeStep (ws, 0, 0)

/-- `findDuplicate` from `script.js` (lines 235-244): first word whose
trimmed lowercased english equals the query's, or — when a non-empty
turkish query is supplied — whose trimmed lowercased turkish equals
the query's. -/
def findDuplicate (ws : List Word) (english turkish : String) : Option Word :=
  if english = "" then none
  else
    let e := jsToLower (jsTrim english)
    let t := jsToLower (jsTrim turkish)
    ws.find? (fun w =>
      (w.english ≠ "" && jsToLower (jsTrim w.english) = e) ||
      (t ≠ "" && w.turkish ≠ "" && jsToLower (jsTrim w.turkish) = t))

/-- The raw payload handed to `addWord`: every field may be absent
(`undefined` in JS is `none`). -/
structure WordData where
  english : Option String
  turkish : Option String
  pronunciation : Option String
  turkishExplanation : Option String
  englishExplanation : Option String
  synonyms : Option (List String)
  antonyms : Option (List String)
  examples : Option (List String)
  level : Option String
  categories : Option (List String)
  notes : Option String
  favorite : Option Bool
deriving Repr, DecidableEq

/-- An absent payload with every field `undefined`. -/
def emptyWordData : WordData :=
  ⟨none, none, none, none, none, none, none, none, none, none, none, none⟩

/-- JS `x?.trim() || ''` on an optional string. -/
def optTrim (o : Option String) : String := (o.map jsTrim).getD ""

/-- `addWord` from `script.js` (lines 196-232), with the fresh id and
the clock passed explicitly. `wordData.english.trim()` is evaluated
without optional chaining, so an absent `english` raises a TypeError:
the model returns `none` in that case and `some word` otherwise.
`level` uses `wordData.level || 'C1'` (so an absent or empty level
becomes `"C1"`), array fields default to `[]`, `favorite` to
`false`, and stats are initialized by `mkInitStats now`. -/
def addWord (d : WordData) (id : String) (now : Nat) : Option Word :=
  match d.english with
  | none => none
  | some e =>
    some
      { id := id
        english := jsTrim e
        turkish := optTrim d.turkish
        pronunciation := optTrim d.pronunciation
        turkishExplanation := optTrim d.turkishExplanation
        englishExplanation := optTrim d.englishExplanation
        synonyms := d.synonyms.getD []
        antonyms := d.antonyms.getD []
        examples := d.examples.getD []
        level := match d.level with
          | some l => if l = "" then "C1" else l
          | none => "C1"
        categories := d.categories.getD []
        notes := optTrim d.notes
        favorite := d.favorite.getD false
        stats := mkInitStats now }

/-- The two field keys `generateDistractors` is called with in
`script.js` (`'turkish'` at line 2138, `'english'` at line 2158). -/
inductive QuizField where
  | english
  | turkish
deriving Repr, DecidableEq

/-- Dynamic property access `w[field]` for the two quiz fields. -/
def getField (w : Word) (f : QuizField) : String :=
  match f with
  | .english => w.english
  | .turkish => w.turkish

/-- `generateDistractors` from `script.js` (lines 2555-2562). The
random in-place `sort(() => Math.random() - 0.5)` is modelled by an
arbitrary permutation `shuffleF` supplied as a parameter (theorems
assume only that it permutes its input): exclude the word itself by
id, prefer the same-level pool when it has at least 3 words, shuffle,
take 3, and read the field value with `w[field] || w.english`. -/
def generateDistractors (shuffleF : List Word → List Word)
    (ws : List Word) (word : Word) (field : QuizField) : List String :=
  let allWords := ws.filter (fun w => w.id ≠ word.id)
  let sameLevel := allWords.filter (fun w => w.level = word.level)
  let pool := if sameLevel.length ≥ 3 then sameLevel else allWords
  ((shuffleF pool).take 3).map
    (fun w => if getField w field = "" then w.english else getField w field)

/-- The quiz source selector read from the `quiz-source` element in
`startQuiz`. -/
inductive Source where
  | all
  | due
  | favorites
  | hard
  | category
  | custom
deriving Repr, DecidableEq

/-- A quiz question `{word, type}` as pushed by `startQuiz`. -/
structure Question where
  word : Word
  type : String
deriving Repr, DecidableEq

/-- The `currentQuiz` object built by `startQuiz`. -/
structure Quiz where
  id : String
  questions : List Question
  currentIndex : Nat
  answers : List String
  startTime : Nat
deriving Repr, DecidableEq

/-- `getDueWords` from `script.js` (lines 369-375): words whose
`nextReviewDate` is ≤ now. -/
def getDueWords (ws : List Word) (now : Nat) : List Word :=
  ws.filter (fun w => w.stats.nextReviewDate ≤ now)

/-- `getWordsByCategory` from `script.js` (lines 353-355). -/
def getWordsByCategory (ws : List Word) (category : String) : List Word :=
  ws.filter (fun w => w.categories.contains category)

/-- The candidate word set `startQuiz` resolves from its source switch
(lines 2012-2035). -/
def resolveSource (ws : List Word) (now : Nat) (source : Source)
    (categoryName : String) (selectedIds : List String) : List Word :=
  match source with
  | .all => ws
  | .due => getDueWords ws now
  | .favorites => ws.filter (fun w => w.favorite)
  | .hard => ws.filter (fun w => isHardWord w)
  | .category => getWordsByCategory ws categoryName
  | .custom => ws.filter (fun w => selectedIds.contains w.id)

/-- `startQuiz` from `script.js` (lines 1998-2075), with the DOM reads
passed as parameters and the two random shuffles as function
parameters. Returns `none` where the source shows a toast and
returns without creating a quiz: empty `questionTypes`; resolved
candidate set smaller than 5 (this check precedes the word-count
read and applies to every source, custom included); or a non-custom
source whose requested word count is below 5. Otherwise the sampled
words are the first `min wordCount |words|` of the shuffled
candidates, and the question list is the word-major cross product
with `questionTypes`, shuffled once more when `randomize` is set. -/
def startQuiz (shuffleW : List Word → List Word)
    (shuffleQ : List Question → List Question)
    (ws : List Word) (now : Nat) (source : Source) (categoryName : String)
    (selectedIds : List String) (questionTypes : List String)
    (randomize : Bool) (wordCountInput : Int) (quizId : String) : Option Quiz :=
  if questionTypes.length = 0 then none
  else
    let words := resolveSource ws now source categoryName selectedIds
    if words.length < 5 then none
    else
      let wordCount : Int :=
        if source = .custom then (words.length : Int) else wordCountInput
      if source ≠ .custom ∧ wordCount < 5 then none
      else
        let shuffled := shuffleW words
        let selectedWords := shuffled.take (min wordCount.toNat words.length)
        let questions := selectedWords.flatMap
          (fun w => questionTypes.map (fun t => { word := w, type := t }))
        let questions := if randomize then shuffleQ questions else questions
        some { id := quizId, questions := questions, currentIndex := 0,
               answers := [], startTime := now }

/-- Closed form of the correct-answer branch of `updateWordStats`. -/
lemma updateWordStats_true_eq (s : Stats) (now : Nat) :
    updateWordStats s true now =
      { addedAt := s.addedAt
        timesTested := s.timesTested + 1
        correctCount := s.correctCount + 1
        wrongCount := s.wrongCount
        lastTested := some now
        difficultyScore := max 0 (s.difficultyScore - 1)
        nextReviewDate := now + hoursPerDay *
          intervals.getD (min (max 0 (((s.correctCount + 1 : Nat) : Int) -
            (s.wrongCount : Int) - 1)) 5).toNat 0
        learned := if s.correctCount + 1 ≥ 5 ∧ s.wrongCount = 0 then true else s.learned } := by
  by_cases h : 4 ≤ s.correctCount ∧ s.wrongCount = 0
  · obtain ⟨h1, h2⟩ := h
    simp [updateWordStats, h1, h2]
  · simp [updateWordStats, h]

/-- Closed form of the wrong-answer branch of `updateWordStats`: the
learned condition `wrongCount === 0` is false right after
`wrongCount++`, so `learned` is untouched. -/
lemma updateWordStats_false_eq (s : Stats) (now : Nat) :
    updateWordStats s false now =
      { s with timesTested := s.timesTested + 1
               lastTested := some now
               wrongCount := s.wrongCount + 1
               difficultyScore := s.difficultyScore + 2
               nextReviewDate := now + hoursPerDay * 1 } := by
  simp only [updateWordStats]
  split <;> simp_all

/-- Counter deltas of a single `updateWordStats` call. -/
lemma updateWordStats_counts (s : Stats) (c : Bool) (now : Nat) :
    (updateWordStats s c now).timesTested = s.timesTested + 1 ∧
    (updateWordStats s c now).correctCount = s.correctCount + (if c then 1 else 0) ∧
    (updateWordStats s c now).wrongCount = s.wrongCount + (if c then 0 else 1) := by
  cases c <;> simp [updateWordStats_true_eq, updateWordStats_false_eq]

/-- A run of all-correct answers adds its length to `correctCount` and
leaves `wrongCount` unchanged. -/
lemma runAnswers_all_correct (l : List Nat) :
    ∀ s : Stats,
      (runAnswers s (l.map (fun t => (true, t)))).correctCount = s.correctCount + l.length ∧
      (runAnswers s (l.map (fun t => (true, t)))).wrongCount = s.wrongCount := by
  induction l with
  | nil => intro s; simp [runAnswers]
  | cons hd tl ih =>
    intro s
    have hstep : runAnswers s ((hd :: tl).map (fun t => (true, t))) =
        runAnswers (updateWordStats s true hd) (tl.map (fun t => (true, t))) := rfl
    rw [hstep]
    obtain ⟨h1, h2⟩ := ih (updateWordStats s true hd)
    rw [h1, h2, updateWordStats_true_eq]
    constructor
    · simp
      omega
    · simp

/-- C2: a correct answer increments `correctCount`, decrements
`difficultyScore` floored at 0, stamps `lastTested = now`, and
schedules the next review `intervals[clamp(correctCount - wrongCount
- 1, 0, 5)]` days ahead (counts taken after the update); and the
(n+1)-th consecutive correct answer from fresh stats is scheduled
`intervals[min(n, 5)]` days after `lastTested`, i.e. the offsets run
1, 3, 7, 14, 30, 90, 90, ... days. -/
theorem C2_correct_answer_schedule :
    (∀ (s : Stats) (now : Nat),
      (updateWordStats s true now).correctCount = s.correctCount + 1 ∧
      (updateWordStats s true now).difficultyScore = max 0 (s.difficultyScore - 1) ∧
      (updateWordStats s true now).lastTested = some now ∧
      (updateWordStats s true now).nextReviewDate = now + hoursPerDay *
        intervals.getD (min (max 0 (((updateWordStats s true now).correctCount : Int) -
          ((updateWordStats s true now).wrongCount : Int) - 1)) 5).toNat 0) ∧
    (∀ (now0 now : Nat) (l : List Nat),
      (updateWordStats (runAnswers (mkInitStats now0) (l.map (fun t => (true, t))))
          true now).nextReviewDate =
        now + hoursPerDay * intervals.getD (min l.length 5) 0 ∧
      (updateWordStats (runAnswers (mkInitStats now0) (l.map (fun t => (true, t))))
          true now).lastTested = some now) := by
  constructor
  · intro s now
    rw [updateWordStats_true_eq]
    refine ⟨rfl, rfl, rfl, ?_⟩
    simp
  · intro now0 now l
    obtain ⟨h1, h2⟩ := runAnswers_all_correct l (mkInitStats now0)
    have hcc : (runAnswers (mkInitStats now0) (l.map (fun t => (true, t)))).correctCount
        = l.length := by
      rw [h1]; simp [mkInitStats]
    have hwc : (runAnswers (mkInitStats now0) (l.map (fun t => (true, t)))).wrongCount
        = 0 := by
      rw [h2]; rfl
    rw [updateWordStats_true_eq]
    refine ⟨?_, rfl⟩
    dsimp only
    simp only [hcc, hwc]
    congr 3
    omega

/-- C3: a wrong answer increments `wrongCount`, adds exactly 2 to
`difficultyScore` whatever its prior value, and schedules the next
review exactly 1 day after `now`, for every prior stats record. -/
theorem C3_wrong_answer_update (s : Stats) (now : Nat) :
    (updateWordStats s false now).wrongCount = s.wrongCount + 1 ∧
    (updateWordStats s false now).difficultyScore = s.difficultyScore + 2 ∧
    (updateWordStats s false now).nextReviewDate = now + hoursPerDay * 1 := by
  rw [updateWordStats_false_eq]
  exact ⟨rfl, rfl, rfl⟩

/-- C4: after any `updateWordStats` call the `learned` flag holds
exactly when it already held before the call or the post-call
counters satisfy `correctCount ≥ 5 ∧ wrongCount = 0`; so the call
sets it precisely on such calls and never clears it. Only the manual
`toggleLearned` flips it back. -/
theorem C4_learned_set_exactly_and_monotone :
    (∀ (s : Stats) (c : Bool) (now : Nat),
      ((updateWordStats s c now).learned = true ↔
        (s.learned = true ∨ ((updateWordStats s c now).correctCount ≥ 5 ∧
          (updateWordStats s c now).wrongCount = 0)))) ∧
    (∀ w : Word, (toggleLearned w).stats.learned = !w.stats.learned) := by
  constructor
  · intro s c now
    cases c
    · rw [updateWordStats_false_eq]
      simp
    · rw [updateWordStats_true_eq]
      by_cases h : s.correctCount + 1 ≥ 5 ∧ s.wrongCount = 0
      · simp [h]
      · rw [if_neg h]
        simp only []
        constructor
        · intro hl
          exact Or.inl hl
        · intro hl
          rcases hl with hl | hl
          · exact hl
          · exact absurd ⟨by omega, hl.2⟩ h
  · intro w
    rfl

/-- C5: starting from the fresh stats installed by `addWord`, after
every sequence of recorded answers `timesTested = correctCount +
wrongCount`, and each single call increases `timesTested` by exactly
1 and never decreases any of the three counters (which are natural
numbers, hence non-negative). -/
theorem C5_counter_invariant (now0 : Nat) (l : List (Bool × Nat)) :
    ((runAnswers (mkInitStats now0) l).timesTested =
      (runAnswers (mkInitStats now0) l).correctCount +
        (runAnswers (mkInitStats now0) l).wrongCount) ∧
    (∀ (s : Stats) (c : Bool) (now : Nat),
      (updateWordStats s c now).timesTested = s.timesTested + 1 ∧
      s.timesTested ≤ (updateWordStats s c now).timesTested ∧
      s.correctCount ≤ (updateWordStats s c now).correctCount ∧
      s.wrongCount ≤ (updateWordStats s c now).wrongCount) := by
  constructor
  · have main : ∀ (l' : List (Bool × Nat)) (s : Stats),
        s.timesTested = s.correctCount + s.wrongCount →
        (runAnswers s l').timesTested =
          (runAnswers s l').correctCount + (runAnswers s l').wrongCount := by
      intro l'
      induction l' with
      | nil => intro s h; exact h
      | cons hd tl ih =>
        intro s h
        have hstep : runAnswers s (hd :: tl) =
            runAnswers (updateWordStats s hd.1 hd.2) tl := rfl
        rw [hstep]
        obtain ⟨h1, h2, h3⟩ := updateWordStats_counts s hd.1 hd.2
        refine ih _ ?_
        rw [h1, h2, h3]
        cases hd.1 <;> simp <;> omega
    exact main l (mkInitStats now0) rfl
  · intro s c now
    obtain ⟨h1, h2, h3⟩ := updateWordStats_counts s c now
    refine ⟨h1, by omega, by rw [h2]; omega, by rw [h3]; omega⟩

/-- C6: a same-calendar-day call leaves `current` unchanged; a call
with `lastActive` exactly yesterday increments `current`; a call with
no prior activity or a gap of at least two days resets `current` to
1; `best` never decreases. -/
theorem C6_streak_transitions (st : Streak) (now : Nat) :
    (∀ t, st.lastActive = some t → dayOf t = dayOf now →
      (updateStreak st now).current = st.current) ∧
    (∀ t, st.lastActive = some t → dayOf t + 1 = dayOf now →
      (updateStreak st now).current = st.current + 1) ∧
    (st.lastActive = none → (updateStreak st now).current = 1) ∧
    (∀ t, st.lastActive = some t → dayOf t + 2 ≤ dayOf now →
      (updateStreak st now).current = 1) ∧
    st.best ≤ (updateStreak st now).best := by
  refine ⟨?_, ?_, ?_, ?_, ?_⟩
  · intro t h ht
    simp [updateStreak, h, ht]
  · intro t h ht
    have hne : ¬(dayOf t = dayOf now) := by omega
    simp [updateStreak, h, hne, ht]
  · intro h
    simp [updateStreak, h]
  · intro t h ht
    have hne1 : ¬(dayOf t = dayOf now) := by omega
    have hne2 : ¬(dayOf t + 1 = dayOf now) := by omega
    simp [updateStreak, h, hne1, hne2]
  · rcases hla : st.lastActive with _ | t
    · simp [updateStreak, hla]
    · by_cases hd : dayOf t = dayOf now
      · simp [updateStreak, hla, hd]
      · simp [updateStreak, hla, hd]

/-- C6 witness: with `lastActive` on day 1 (hour 24) and a call on
day 2 (hour 48), `current` goes from 2 to 3. -/
theorem C6_streak_transitions_witness :
    (updateStreak ⟨2, 3, some 24⟩ 48).current = 2 + 1 :=
  (C6_streak_transitions ⟨2, 3, some 24⟩ 48).2.1 24 rfl (by decide)

/-- C7 counterexample: a second call on the same calendar day (hour 1,
`lastActive` at hour 0, both day 0) returns without touching
`lastActive`, so it is not set to `now` as the claim requires of
every call. -/
theorem C7_counterexample :
    dayOf 0 = dayOf 1 ∧
    (updateStreak { current := 1, best := 1, lastActive := some 0 } 1).lastActive ≠ some 1 := by
  decide

/-- C7 amended: a call on a calendar day different from `lastActive`'s
(including when there is no prior activity) sets `lastActive := now`
and `best := max best current` (with the just-updated `current`); a
call on the same calendar day as `lastActive` returns the streak
record entirely unchanged, `lastActive` and `best` included. -/
theorem C7_stamp_amended (st : Streak) (now : Nat) :
    ((∀ t, st.lastActive = some t → dayOf t ≠ dayOf now) →
      (updateStreak st now).lastActive = some now ∧
      (updateStreak st now).best = max st.best (updateStreak st now).current) ∧
    (∀ t, st.lastActive = some t → dayOf t = dayOf now → updateStreak st now = st) := by
  constructor
  · intro h
    rcases hla : st.lastActive with _ | t
    · simp [updateStreak, hla]
    · have hne : ¬(dayOf t = dayOf now) := h t hla
      simp [updateStreak, hla, hne]
  · intro t h ht
    simp [updateStreak, h, ht]

/-- C7 witness: a first-ever call at hour 0 stamps `lastActive` and
recomputes `best`. -/
theorem C7_stamp_amended_witness :
    (updateStreak { current := 1, best := 1, lastActive := none } 0).lastActive = some 0 ∧
    (updateStreak { current := 1, best := 1, lastActive := none } 0).best =
      max 1 (updateStreak { current := 1, best := 1, lastActive := none } 0).current :=
  (C7_stamp_amended { current := 1, best := 1, lastActive := none } 0).1
    (fun _ h => Option.noConfusion h)

/-- A minimal word record for concrete counterexamples: only id,
english, turkish and level vary; the rest are the `addWord` defaults
at time 0. -/
def mkWord (id english turkish level : String) : Word :=
  { id := id, english := english, turkish := turkish, pronunciation := "",
    turkishExplanation := "", englishExplanation := "", synonyms := [],
    antonyms := [], examples := [], level := level, categories := [],
    notes := "", favorite := false, stats := mkInitStats 0 }

/-- The merge semantics restated as structural recursion over the
imported list (the amended claim's reading): an imported word is
skipped exactly when some word in the repository state current at its
turn — earlier-batch insertions included — matches case-insensitively
on english AND on turkish; otherwise it is inserted under its own
id. -/
def mergeSpecAnd : List Word → List Word → List Word × Nat × Nat
  | ws, [] => (ws, 0, 0)
  | ws, w :: rest =>
    if mergeDuplicate ws w then
      let r := mergeSpecAnd ws rest
      (r.1, r.2.1, r.2.2 + 1)
    else
      let r := mergeSpecAnd (insertKeyed ws w) rest
      (r.1, r.2.1 + 1, r.2.2)

/-- The merge fold with an arbitrary counter accumulator agrees with
the structural recursion. -/
lemma foldl_mergeStep_eq (l : List Word) :
    ∀ (ws : List Word) (m s : Nat),
      l.foldl mergeStep (ws, m, s) =
        ((mergeSpecAnd ws l).1, m + (mergeSpecAnd ws l).2.1, s + (mergeSpecAnd ws l).2.2) := by
  induction l with
  | nil => intro ws m s; simp [mergeSpecAnd]
  | cons hd tl ih =>
    intro ws m s
    rw [List.foldl_cons]
    by_cases h : mergeDuplicate ws hd = true
    · have hstep : mergeStep (ws, m, s) hd = (ws, m, s + 1) := by
        simp [mergeStep, h]
      rw [hstep, ih ws m (s + 1), mergeSpecAnd, if_pos h]
      simp [Nat.add_assoc, Nat.add_comm, Nat.add_left_comm]
    · have hstep : mergeStep (ws, m, s) hd = (insertKeyed ws hd, m + 1, s) := by
        simp [mergeStep, h]
      rw [hstep, ih (insertKeyed ws hd) (m + 1) s, mergeSpecAnd, if_neg h]
      simp [Nat.add_assoc, Nat.add_comm, Nat.add_left_comm]

/-- The structural merge counts every imported word exactly once. -/
lemma mergeSpecAnd_counts (l : List Word) :
    ∀ ws : List Word,
      (mergeSpecAnd ws l).2.1 + (mergeSpecAnd ws l).2.2 = l.length := by
  induction l with
  | nil => intro ws; simp [mergeSpecAnd]
  | cons hd tl ih =>
    intro ws
    rw [mergeSpecAnd]
    by_cases h : mergeDuplicate ws hd = true
    · rw [if_pos h]
      have := ih ws
      simp only [List.length_cons]
      omega
    · rw [if_neg h]
      have := ih (insertKeyed ws hd)
      simp only [List.length_cons]
      omega

/-- C1 counterexample: the repository holds apple/elma and the import
brings Apple/kirmizi — a case-insensitive english match, so the claim
(english OR turkish suffices to skip) says it must be skipped, yet
`importData`'s merge requires english AND turkish to match and
therefore inserts it: mergedCount 1, skippedCount 0. -/
theorem C1_counterexample :
    jsToLower (mkWord "a" "apple" "elma" "C1").english =
      jsToLower (mkWord "b" "Apple" "kirmizi" "C1").english ∧
    importDataMerge [mkWord "a" "apple" "elma" "C1"] [mkWord "b" "Apple" "kirmizi" "C1"] =
      ([mkWord "a" "apple" "elma" "C1", mkWord "b" "Apple" "kirmizi" "C1"], 1, 0) := by
  constructor
  · decide
  · decide

/-- C1 amended: merge skips an imported word if and only if some word
in the current repository state (re-evaluated after each insertion,
so within-batch insertions are seen) matches it case-insensitively on
english AND case-insensitively on turkish; a word with no such match
is inserted under its original id; mergedCount and skippedCount count
the inserted and skipped words and always sum to the import's size.
Stated as: the fold in the source equals the structural recursion
`mergeSpecAnd` embodying exactly that rule. -/
theorem C1_merge_amended (ws imported : List Word) :
    importDataMerge ws imported = mergeSpecAnd ws imported ∧
    (importDataMerge ws imported).2.1 + (importDataMerge ws imported).2.2 =
      imported.length := by
  have h := foldl_mergeStep_eq imported ws 0 0
  constructor
  · rw [importDataMerge, h]
    simp
  · rw [importDataMerge, h]
    have := mergeSpecAnd_counts imported ws
    simpa using this

/-- A repository for the distractor scenario: four B1 words, the word
under quiz ("run") sharing its turkish value with another word
("walk" → "kosmak"). -/
def wsC8 : List Word :=
  [mkWord "a" "run" "kosmak" "B1", mkWord "b" "walk" "kosmak" "B1",
   mkWord "c" "jump" "ziplamak" "B1", mkWord "d" "sit" "oturmak" "B1"]

/-- The quizzed word of the distractor scenario. -/
def wC8 : Word := mkWord "a" "run" "kosmak" "B1"

/-- C8 counterexample: "run" has 3 other words of its level, and with
the (legitimate) identity shuffle outcome `generateDistractors`
returns the other three words' turkish values — which include
"kosmak", the correct answer, because no filtering against the
correct answer's value is performed. -/
theorem C8_counterexample :
    3 ≤ ((wsC8.filter (fun y => y.id ≠ wC8.id)).filter
          (fun y => y.level = wC8.level)).length ∧
    (getField wC8 .turkish) ∈ generateDistractors id wsC8 wC8 .turkish := by
  decide

/-- C8 amended: for any shuffle outcome, every returned distractor
value comes from a word other than the quizzed word — of the same
level whenever at least 3 other words share the level — with english
substituted for an empty field value, and exactly `min 3 |pool|`
distractors are returned; but a distractor may equal the quizzed
word's own answer value when another word carries the same value (no
dedup against the correct answer). -/
theorem C8_distractors_amended (shuffleF : List Word → List Word)
    (hperm : ∀ l, (shuffleF l).Perm l) (ws : List Word) (w : Word) (field : QuizField) :
    (∀ v ∈ generateDistractors shuffleF ws w field,
      ∃ x, x ∈ ws ∧ x.id ≠ w.id ∧
        (3 ≤ ((ws.filter (fun y => y.id ≠ w.id)).filter
            (fun y => y.level = w.level)).length → x.level = w.level) ∧
        v = (if getField x field = "" then x.english else getField x field)) ∧
    (generateDistractors shuffleF ws w field).length =
      min 3 (if 3 ≤ ((ws.filter (fun y => y.id ≠ w.id)).filter
                (fun y => y.level = w.level)).length
             then ((ws.filter (fun y => y.id ≠ w.id)).filter
                (fun y => y.level = w.level)).length
             else (ws.filter (fun y => y.id ≠ w.id)).length) := by
  constructor
  · intro v hv
    rw [generateDistractors] at hv
    simp only [List.mem_map] at hv
    obtain ⟨x, hxtake, hveq⟩ := hv
    have hxshuf := List.mem_of_mem_take hxtake
    by_cases hc : 3 ≤ ((ws.filter (fun y => y.id ≠ w.id)).filter
        (fun y => y.level = w.level)).length
    · rw [if_pos hc] at hxshuf
      have hxsl := ((hperm _).mem_iff).mp hxshuf
      have hxaw := List.mem_of_mem_filter hxsl
      have hlevel := List.of_mem_filter hxsl
      have hmem := List.mem_of_mem_filter hxaw
      have hid := List.of_mem_filter hxaw
      refine ⟨x, hmem, by simpa using hid, fun _ => by simpa using hlevel, hveq.symm⟩
    · rw [if_neg hc] at hxshuf
      have hxaw := ((hperm _).mem_iff).mp hxshuf
      have hmem := List.mem_of_mem_filter hxaw
      have hid := List.of_mem_filter hxaw
      exact ⟨x, hmem, by simpa using hid, fun h => absurd h hc, hveq.symm⟩
  · rw [generateDistractors]
    rw [List.length_map, List.length_take, (hperm _).length_eq]
    by_cases hc : 3 ≤ ((ws.filter (fun y => y.id ≠ w.id)).filter
        (fun y => y.level = w.level)).length
    · rw [if_pos hc, if_pos hc]
    · rw [if_neg hc, if_neg hc]

/-- C8 witness: in the concrete four-word repository the amended
theorem (instantiated with the identity shuffle) yields exactly 3
distractors. -/
theorem C8_distractors_amended_witness :
    (generateDistractors id wsC8 wC8 QuizField.turkish).length = 3 := by
  have h := (C8_distractors_amended id (fun l => List.Perm.refl l)
    wsC8 wC8 QuizField.turkish).2
  rw [h]
  decide

/-- Four B1 words whose ids are all selected in the custom-source
counterexample. -/
def wsC9 : List Word :=
  [mkWord "a" "red" "kirmizi" "B1", mkWord "b" "blue" "mavi" "B1",
   mkWord "c" "green" "yesil" "B1", mkWord "d" "black" "siyah" "B1"]

/-- Six B1 words for the custom-source question-count witness. -/
def wsC9six : List Word :=
  [mkWord "a" "red" "kirmizi" "B1", mkWord "b" "blue" "mavi" "B1",
   mkWord "c" "green" "yesil" "B1", mkWord "d" "black" "siyah" "B1",
   mkWord "e" "white" "beyaz" "B1", mkWord "f" "pink" "pembe" "B1"]

/-- C9 counterexample: a custom source resolving to 4 words with a
non-empty question-type list is rejected by `startQuiz` (the
`words.length < 5` guard runs before the custom exemption), whereas
the claim confines the minimum-5 rule to non-custom sources and so
requires a 4 × 1 question quiz here. -/
theorem C9_counterexample :
    (resolveSource wsC9 0 Source.custom "" ["a", "b", "c", "d"]).length = 4 ∧
    (["direct"] : List String) ≠ [] ∧
    startQuiz id id wsC9 0 Source.custom "" ["a", "b", "c", "d"]
      ["direct"] false 10 "q" = none := by
  decide

/-- C9 amended: `startQuiz` creates no quiz exactly when the selected
question types are empty, OR the resolved candidate set has fewer
than 5 words (for every source, custom included), OR the source is
non-custom and the requested word count is below 5; and for a custom
source passing these guards the quiz holds exactly |candidates| ×
|questionTypes| questions. -/
theorem C9_start_amended (shuffleW : List Word → List Word)
    (hW : ∀ l, (shuffleW l).Perm l)
    (shuffleQ : List Question → List Question)
    (hQ : ∀ l, (shuffleQ l).Perm l)
    (ws : List Word) (now : Nat) (source : Source) (categoryName : String)
    (selectedIds : List String) (questionTypes : List String)
    (randomize : Bool) (wordCountInput : Int) (quizId : String) :
    (startQuiz shuffleW shuffleQ ws now source categoryName selectedIds
        questionTypes randomize wordCountInput quizId = none ↔
      (questionTypes = [] ∨
        (resolveSource ws now source categoryName selectedIds).length < 5 ∨
        (source ≠ Source.custom ∧ wordCountInput < 5))) ∧
    (source = Source.custom → questionTypes ≠ [] →
      5 ≤ (resolveSource ws now source categoryName selectedIds).length →
      ∃ q, startQuiz shuffleW shuffleQ ws now source categoryName selectedIds
          questionTypes randomize wordCountInput quizId = some q ∧
        q.questions.length =
          (resolveSource ws now source categoryName selectedIds).length *
            questionTypes.length) := by
  constructor
  · rw [startQuiz]
    by_cases h1 : questionTypes.length = 0
    · rw [if_pos h1]
      simp [List.length_eq_zero.mp h1]
    · rw [if_neg h1]
      have h1' : questionTypes ≠ [] := fun h => h1 (by simp [h])
      by_cases h2 : (resolveSource ws now source categoryName selectedIds).length < 5
      · rw [if_pos h2]
        simp [h2]
      · rw [if_neg h2]
        by_cases hs : source = Source.custom
        · subst hs
          have h3 : ¬(Source.custom ≠ Source.custom ∧
              (if Source.custom = Source.custom
                then ((resolveSource ws now Source.custom categoryName selectedIds).length : Int)
                else wordCountInput) < 5) := by
            intro hcon
            exact hcon.1 rfl
          rw [if_neg h3]
          simp [h1', h2]
        · by_cases h4 : wordCountInput < 5
          · have h3 : source ≠ Source.custom ∧
                (if source = Source.custom
                  then ((resolveSource ws now source categoryName selectedIds).length : Int)
                  else wordCountInput) < 5 := by
              refine ⟨hs, ?_⟩
              rw [if_neg hs]
              exact h4
            rw [if_pos h3]
            simp [hs, h4]
          · have h3 : ¬(source ≠ Source.custom ∧
                (if source = Source.custom
                  then ((resolveSource ws now source categoryName selectedIds).length : Int)
                  else wordCountInput) < 5) := by
              intro hcon
              rw [if_neg hs] at hcon
              exact h4 hcon.2
            rw [if_neg h3]
            simp [h1', h2, hs, h4]
  · intro hs hne hlen
    rw [startQuiz]
    have h1 : ¬(questionTypes.length = 0) := fun h => hne (List.length_eq_zero.mp h)
    rw [if_neg h1]
    have h2 : ¬((resolveSource ws now source categoryName selectedIds).length < 5) := by
      omega
    rw [if_neg h2]
    have h3 : ¬(source ≠ Source.custom ∧
        (if source = Source.custom
          then ((resolveSource ws now source categoryName selectedIds).length : Int)
          else wordCountInput) < 5) := by
      intro hcon
      exact hcon.1 hs
    rw [if_neg h3]
    refine ⟨_, rfl, ?_⟩
    rw [if_pos hs]
    have htoNat : ((resolveSource ws now source categoryName selectedIds).length : Int).toNat =
        (resolveSource ws now source categoryName selectedIds).length := Int.toNat_natCast _
    rw [htoNat, Nat.min_self]
    have htake : ((shuffleW (resolveSource ws now source categoryName selectedIds)).take
        (resolveSource ws now source categoryName selectedIds).length).length =
        (resolveSource ws now source categoryName selectedIds).length := by
      rw [List.length_take, (hW _).length_eq, Nat.min_self]
    by_cases hr : randomize
    · rw [if_pos hr, (hQ _).length_eq]
      rw [List.length_flatMap]
      simp only [Function.comp_def, List.length_map]
      rw [List.map_const', List.sum_replicate, smul_eq_mul, htake, Nat.mul_comm]
    · rw [if_neg hr]
      rw [List.length_flatMap]
      simp only [Function.comp_def, List.length_map]
      rw [List.map_const', List.sum_replicate, smul_eq_mul, htake, Nat.mul_comm]

/-- C9 witness: six custom ids and two question types produce exactly
12 questions. -/
theorem C9_start_amended_witness :
    ∃ q, startQuiz id id wsC9six 0 Source.custom "" ["a", "b", "c", "d", "e", "f"]
        ["direct", "reverse"] true 3 "q" = some q ∧ q.questions.length = 12 := by
  have h := (C9_start_amended id (fun l => List.Perm.refl l) id (fun l => List.Perm.refl l)
      wsC9six 0 Source.custom "" ["a", "b", "c", "d", "e", "f"] ["direct", "reverse"]
      true 3 "q").2 rfl (by decide) (by decide)
  obtain ⟨q, hq, hlen⟩ := h
  refine ⟨q, hq, ?_⟩
  rw [hlen]
  decide

/-- C10 counterexample: `addWord` evaluates `wordData.english.trim()`
without optional chaining, so a record with `english` absent raises a
TypeError (modelled as `none`) instead of returning a Word as the
claim requires of every input record. -/
theorem C10_counterexample :
    emptyWordData.english = none ∧ addWord emptyWordData "w1" 0 = none := by
  decide

/-- C10 amended: `addWord` raises exactly on records whose `english`
is absent; for every record carrying an `english` string (even empty
or untrimmed) it returns a Word without raising, with the defaults
applied — level C1, empty arrays, favorite false, and stats
initialized with `timesTested = 0`, `nextReviewDate = now`,
`learned = false`. -/
theorem C10_add_amended (d : WordData) (id : String) (now : Nat) :
    (d.english = none → addWord d id now = none) ∧
    (∀ e, d.english = some e → ∃ w, addWord d id now = some w ∧
      w.id = id ∧ w.english = jsTrim e ∧
      (d.level = none → w.level = "C1") ∧
      (d.synonyms = none → w.synonyms = []) ∧
      (d.antonyms = none → w.antonyms = []) ∧
      (d.examples = none → w.examples = []) ∧
      (d.categories = none → w.categories = []) ∧
      (d.favorite = none → w.favorite = false) ∧
      w.stats = mkInitStats now) := by
  constructor
  · intro h
    rw [addWord, h]
  · intro e he
    rw [addWord, he]
    refine ⟨_, rfl, rfl, rfl, ?_, ?_, ?_, ?_, ?_, ?_, rfl⟩
    all_goals intro h
    all_goals rw [h]
    all_goals rfl

/-- C10 witness: a record whose only field is english " Run " yields a
Word with trimmed english, level C1 and fresh stats at time 7. -/
theorem C10_add_amended_witness :
    ∃ w, addWord { emptyWordData with english := some " Run " } "id1" 7 = some w ∧
      w.english = "Run" ∧ w.level = "C1" ∧ w.stats = mkInitStats 7 := by
  obtain ⟨w, hw, _, hen, hlv, _, _, _, _, _, hst⟩ :=
    (C10_add_amended { emptyWordData with english := some " Run " } "id1" 7).2 " Run " rfl
  refine ⟨w, hw, ?_, hlv rfl, hst⟩
  rw [hen]
  decide
